import Mathlib

/-!
Shallow embedding of `tracking_project/radial_analyzer.py` (class `RadialAnalyzer`)
and verification of the spec's claims about the radial motion engine.

DataFrames are modelled as lists of rows; numeric cell values as real numbers.
`numpy.sqrt` is `Real.sqrt`, `numpy.arctan2 y x` is the argument of the complex
number `x + y*I`.  Lookups via `spots[spots['ID'] == id].values[0]` are `List.find?`
(first matching row).  Pandas raising (e.g. on a column assignment whose value
list does not match the frame's index length) is modelled with `Except String`.
-/

noncomputable section

namespace Trackmate

/-- A row of the spot table.  `position_t` is the optional `POSITION_T` column
(seconds); `frame` is the `FRAME` column. -/
structure Spot where
  fileId : String
  id : Int
  x : ℝ
  y : ℝ
  position_t : Option ℝ
  frame : Int

/-- A row of the edge table (the columns the engine reads). -/
structure Edge where
  fileId : String
  sourceId : Int
  targetId : Int
  deriving DecidableEq

/-- The columns `process_file` appends to a retained edge row. -/
structure ProcCols where
  u : ℝ
  v : ℝ
  source_x : ℝ
  source_y : ℝ
  target_x : ℝ
  target_y : ℝ
  radial_distance : ℝ
  radial_velocity : ℝ
  radial_velocity_theta : ℝ
  center_x : ℝ
  center_y : ℝ

/-- A row of an edge DataFrame as it flows through the engine: the original edge
columns, optionally the computed radial columns, optionally the persistence
column added by `calculate_radial_persistence`. -/
structure Row where
  edge : Edge
  cols : Option ProcCols
  radial_persistence : Option ℝ

/-- `numpy.arctan2 y x`, via the principal argument of `x + y*I` (range `(-π, π]`,
`atan2 0 0 = 0`, matching numpy). -/
def atan2 (y x : ℝ) : ℝ := Complex.arg ⟨x, y⟩

/-- `pandas.Series.mean`: sum divided by row count. -/
def mean (l : List ℝ) : ℝ := l.sum / l.length

/-- `self.spot_table[self.spot_table['File_ID'] == file_id]`. -/
def spotsOf (spotT : List Spot) (fid : String) : List Spot :=
  spotT.filter (fun s => s.fileId == fid)

/-- `self.edge_table[self.edge_table['File_ID'] == file_id].copy()`. -/
def edgesOf (edgeT : List Edge) (fid : String) : List Edge :=
  edgeT.filter (fun e => e.fileId == fid)

/-- The body of the per-edge loop of `RadialAnalyzer.process_file`: resolve the
source and target spots (first row whose `ID` matches; `continue`, i.e. `none`,
when either lookup is empty), compute the movement vector, the radial distance
of the source from the dynamic center, and — when that distance is non-zero —
the radial direction, angle and (unnormalized) radial velocity; at the exact
center the angle and velocity are set to `0`. -/
def computeRow (spots : List Spot) (cx cy : ℝ) (e : Edge) : Option ProcCols :=
  match spots.find? (fun s => s.id == e.sourceId),
        spots.find? (fun s => s.id == e.targetId) with
  | some s, some t =>
      let u := t.x - s.x
      let v := t.y - s.y
      let r := Real.sqrt ((s.x - cx) ^ 2 + (s.y - cy) ^ 2)
      if r ≠ 0 then
        some { u := u, v := v
               source_x := s.x, source_y := s.y
               target_x := t.x, target_y := t.y
               radial_distance := r
               radial_velocity := -(u * ((cx - s.x) / r) + v * ((cy - s.y) / r))
               radial_velocity_theta := atan2 ((cy - s.y) / r) ((cx - s.x) / r)
               center_x := cx, center_y := cy }
      else
        some { u := u, v := v
               source_x := s.x, source_y := s.y
               target_x := t.x, target_y := t.y
               radial_distance := r
               radial_velocity := 0
               radial_velocity_theta := 0
               center_x := cx, center_y := cy }
  | _, _ => none

/-- The per-edge values accumulated by the loop of `process_file` (the parallel
lists `u_values`, ..., `centers_y`, one entry per edge that was not skipped). -/
def valsOf (spotT : List Spot) (edgeT : List Edge) (fid : String) : List ProcCols :=
  (edgesOf edgeT fid).filterMap
    (computeRow (spotsOf spotT fid)
      (mean ((spotsOf spotT fid).map Spot.x))
      (mean ((spotsOf spotT fid).map Spot.y)))

/-- `RadialAnalyzer.process_file`.  Filters spots and edges for the file; if
either is empty, returns the (empty or raw) filtered edges.  Otherwise computes
the dynamic center, runs the per-edge loop, and assigns the accumulated lists
as new columns.  The column assignment `edges.loc[:, 'u'] = u_values` raises a
`ValueError` in pandas when the value list is shorter than the frame (which
happens exactly when some edge was skipped); this is the `.error` case. -/
def process_file (spotT : List Spot) (edgeT : List Edge) (fid : String) :
    Except String (List Row) :=
  let spots := spotsOf spotT fid
  let edges := edgesOf edgeT fid
  if spots.isEmpty || edges.isEmpty then
    .ok (edges.map (fun e => ⟨e, none, none⟩))
  else
    let vals := valsOf spotT edgeT fid
    if vals.length = edges.length then
      .ok ((edges.zip vals).map (fun p => ⟨p.1, some p.2, none⟩))
    else
      .error "Length of values does not match length of index"

/-- `spot_table['File_ID'].unique()`: distinct values in order of first
appearance (pandas semantics). -/
def uniqueFirst (l : List String) : List String :=
  l.foldl (fun acc x => if x ∈ acc then acc else acc ++ [x]) []

/-- One iteration of the `process_all_files` loop: run `process_file` for one
`File_ID` and append the result to the accumulated output when it is
non-empty (`if not processed_edges.empty: processed_edges_list.append(...)`). -/
def pafStep (spotT : List Spot) (edgeT : List Edge) (acc : List Row) (fid : String) :
    Except String (List Row) := do
  let pe ← process_file spotT edgeT fid
  pure (if pe.isEmpty then acc else acc ++ pe)

/-- `RadialAnalyzer.process_all_files`: iterate the distinct `File_ID` values of
the spot table, run `process_file` on each, collect the non-empty results, and
concatenate them (`pd.concat(..., ignore_index=True)`, or an empty frame when
nothing was collected — both are list concatenation of the collected rows). -/
def process_all_files (spotT : List Spot) (edgeT : List Edge) :
    Except String (List Row) :=
  (uniqueFirst (spotT.map Spot.fileId)).foldlM (pafStep spotT edgeT) []

/-- The per-row value computed by `RadialAnalyzer.calculate_radial_persistence`:
`np.where(velocity_magnitude != 0, radial_velocity / velocity_magnitude, 0)`. -/
def persistenceOf (u v rv : ℝ) : ℝ :=
  if Real.sqrt (u ^ 2 + v ^ 2) ≠ 0 then rv / Real.sqrt (u ^ 2 + v ^ 2) else 0

/-- `calculate_radial_persistence` applied to one row of a processed edge
frame (reads the `u`, `v` and `radial_velocity` columns). -/
def rowPersistence (row : Row) : ℝ :=
  match row.cols with
  | some c => persistenceOf c.u c.v c.radial_velocity
  | none => 0

/-- Modelled from the spec: the elapsed-time rule of the evolved (canonical)
variant of the radial engine, whose source file is absent from the sources at
hand (the design notes describe two observed variants and designate the later
one — with explicit time-step handling and frame fallback — as canonical).
Prefer `POSITION_T` (seconds) on both endpoints, converted to minutes,
difference target minus source; otherwise fall back to
`(target_FRAME - source_FRAME) * 600 / 60` with a fixed 600 s frame interval. -/
def dtMinutes (s t : Spot) : ℝ :=
  match s.position_t, t.position_t with
  | some ts, some tt => tt / 60 - ts / 60
  | _, _ => ((t.frame : ℝ) - (s.frame : ℝ)) * 600 / 60

/-- Modelled from the spec: the per-edge step of the evolved (canonical) variant
of the radial engine, absent from the sources at hand.  Resolve endpoints (skip
on a missing reference), compute the displacement and the elapsed time `dt`
(skip when `dt = 0`), the inward radial unit vector (skip when the radial
distance is `0`), and emit the signed radial velocity `-(u*ux + v*uy) / dt`
with its polar angle. -/
def computeRowV2 (spots : List Spot) (cx cy : ℝ) (e : Edge) : Option ProcCols :=
  match spots.find? (fun s => s.id == e.sourceId),
        spots.find? (fun s => s.id == e.targetId) with
  | some s, some t =>
      let u := t.x - s.x
      let v := t.y - s.y
      let dt := dtMinutes s t
      if dt = 0 then none
      else
        let dx := cx - s.x
        let dy := cy - s.y
        let r := Real.sqrt (dx ^ 2 + dy ^ 2)
        if r = 0 then none
        else
          some { u := u, v := v
                 source_x := s.x, source_y := s.y
                 target_x := t.x, target_y := t.y
                 radial_distance := r
                 radial_velocity := -(u * (dx / r) + v * (dy / r)) / dt
                 radial_velocity_theta := atan2 (dy / r) (dx / r)
                 center_x := cx, center_y := cy }
  | _, _ => none

/-- Modelled from the spec: the evolved (canonical) variant of
`process_file`, absent from the sources at hand.  Sentinel degenerate edges
(`SPOT_SOURCE_ID == SPOT_TARGET_ID == 0`) are discarded before processing; an
empty per-file spot or edge subset yields an empty result; each retained edge
appends exactly one output record (no index-aligned parallel lists, hence no
length-mismatch failure). -/
def process_file_v2 (spotT : List Spot) (edgeT : List Edge) (fid : String) :
    List Row :=
  let spots := spotsOf spotT fid
  let edges := (edgesOf edgeT fid).filter
    (fun e => !(e.sourceId == 0 && e.targetId == 0))
  if spots.isEmpty || edges.isEmpty then []
  else
    let cx := mean (spots.map Spot.x)
    let cy := mean (spots.map Spot.y)
    edges.filterMap (fun e => (computeRowV2 spots cx cy e).map (fun c => ⟨e, some c, none⟩))

/-! ### A heap of edge frames, for the aliasing/ownership claim

Python DataFrames are mutable objects passed by reference; `.copy()` allocates
a fresh one.  A heap maps references (naturals) to frames; `alloc` returns a
fresh reference, `set` overwrites an existing frame in place.  Only the engine's
two frame-mutating operations exist: the column assignments inside
`process_file` (which target a frame freshly copied inside the method, so they
surface as the allocation of the result) and the persistence column assignment
of `calculate_radial_persistence` (which targets the frame passed in). -/

/-- An edge DataFrame as stored on the heap. -/
abbrev Table := List Row

/-- A heap of edge frames: contents plus a fresh-reference counter. -/
structure Heap where
  mem : Nat → Table
  fresh : Nat

/-- Dereference. -/
def Heap.get (h : Heap) (r : Nat) : Table := h.mem r

/-- Allocate a fresh frame. -/
def Heap.alloc (h : Heap) (t : Table) : Heap × Nat :=
  (⟨fun r => if r = h.fresh then t else h.mem r, h.fresh + 1⟩, h.fresh)

/-- Overwrite the frame at `r` in place. -/
def Heap.set (h : Heap) (r : Nat) (t : Table) : Heap :=
  ⟨fun q => if q = r then t else h.mem q, h.fresh⟩

/-- The state of a `RadialAnalyzer` object: `self.spot_table` (held by
reference, but spot frames are never written, so plain values suffice) and
`self.edge_ref`, the reference to `self.edge_table`. -/
structure RadialAnalyzer where
  spot_table : List Spot
  edge_ref : Nat

/-- `RadialAnalyzer.__init__`: store the spot table and a fresh copy of the
caller's edge table (`edge_table.copy()`). -/
def analyzerInit (h : Heap) (spotT : List Spot) (edgeRef : Nat) :
    Heap × RadialAnalyzer :=
  let p := h.alloc (h.get edgeRef)
  (p.1, ⟨spotT, p.2⟩)

/-- `process_file` as a method: reads the stored tables, allocates the result
frame (the `.copy()` of the filtered edges that the column assignments then
target), and raises without touching any pre-existing frame. -/
def processFileH (h : Heap) (a : RadialAnalyzer) (fid : String) :
    Heap × Except String Nat :=
  match process_file a.spot_table ((h.get a.edge_ref).map Row.edge) fid with
  | .ok rows => let p := h.alloc rows; (p.1, .ok p.2)
  | .error m => (h, .error m)

/-- `process_all_files` as a method: reads the stored tables and allocates the
concatenated result frame (`pd.concat` always builds a new frame). -/
def processAllFilesH (h : Heap) (a : RadialAnalyzer) :
    Heap × Except String Nat :=
  match process_all_files a.spot_table ((h.get a.edge_ref).map Row.edge) with
  | .ok rows => let p := h.alloc rows; (p.1, .ok p.2)
  | .error m => (h, .error m)

/-- `calculate_radial_persistence` as a method: reads the `u`, `v` and
`radial_velocity` columns of the frame at `r` (a `KeyError` when they are
missing), writes the `radial_persistence` column into that frame in place, and
returns the series. -/
def calcPersistenceH (h : Heap) (r : Nat) : Heap × Except String (List ℝ) :=
  let t := h.get r
  if t.all (fun row => row.cols.isSome) then
    (h.set r (t.map (fun row => { row with radial_persistence := some (rowPersistence row) })),
     .ok (t.map rowPersistence))
  else
    (h, .error "KeyError")

/-- The cross-file driver as the spec words it: run the engine per file over a
given enumeration of `File_ID` values, keep the non-empty per-file results in
that order, and concatenate them (row order within a file preserved).  Used to
compare `process_all_files` against the spec's description. -/
def concatPerFile (spotT : List Spot) (edgeT : List Edge) :
    List String → Except String (List Row)
  | [] => .ok []
  | fid :: rest => do
      let pe ← process_file spotT edgeT fid
      let rs ← concatPerFile spotT edgeT rest
      pure (if pe.isEmpty then rs else pe ++ rs)

/-- The engine run as the pipeline drives it: construct the analyzer from the
caller's tables, run `process_file` and `process_all_files`, then add the
persistence column to the combined output frame in place.  Returns the final
heap. -/
def runEngineH (h : Heap) (spotT : List Spot) (edgeRef : Nat) (fid : String) : Heap :=
  let p := analyzerInit h spotT edgeRef
  let q := processFileH p.1 p.2 fid
  let w := processAllFilesH q.1 p.2
  match w.2 with
  | .ok oref => (calcPersistenceH w.1 oref).1
  | .error _ => w.1

/-! ### Concrete tables used as witnesses and counterexamples -/

/-- Two spots of file `F1`: spot 1 at the origin, spot 2 at `(2, 0)`.
The dynamic center is `(1, 0)`. -/
def spotsA : List Spot :=
  [⟨"F1", 1, 0, 0, none, 0⟩, ⟨"F1", 2, 2, 0, none, 0⟩]

/-- One resolvable edge `1 → 2` and one edge `1 → 3` whose target spot does not
exist. -/
def edgesA : List Edge := [⟨"F1", 1, 2⟩, ⟨"F1", 1, 3⟩]

/-- The single resolvable edge `1 → 2` of file `F1`. -/
def edgesB : List Edge := [⟨"F1", 1, 2⟩]

/-- The computed columns of edge `1 → 2` over `spotsA`: displacement `(2, 0)`,
source at distance `1` from the center `(1, 0)`, radial velocity `-2`. -/
def colsB : ProcCols :=
  { u := 2, v := 0, source_x := 0, source_y := 0, target_x := 2, target_y := 0
    radial_distance := 1, radial_velocity := -2, radial_velocity_theta := 0
    center_x := 1, center_y := 0 }

/-- Three spots of file `F1` whose centroid `(1, 0)` coincides with spot 3. -/
def spotsC : List Spot :=
  [⟨"F1", 1, 0, 0, none, 0⟩, ⟨"F1", 2, 2, 0, none, 0⟩, ⟨"F1", 3, 1, 0, none, 0⟩]

/-- One edge `3 → 2` whose source spot sits exactly at the centroid. -/
def edgesC : List Edge := [⟨"F1", 3, 2⟩]

/-- The columns of edge `3 → 2` over `spotsC`: zero radial distance, zero
radial velocity and angle. -/
def colsC : ProcCols :=
  { u := 1, v := 0, source_x := 1, source_y := 0, target_x := 2, target_y := 0
    radial_distance := 0, radial_velocity := 0, radial_velocity_theta := 0
    center_x := 1, center_y := 0 }

/-- Spots of file `F1` carrying `POSITION_T`: spot 1 at `(0,0)` at `60 s`,
spot 2 at `(2,0)` at `120 s` (so an edge `1 → 2` has `dt = 1` minute), spot 3
at `(1,0)` also at `60 s` (so an edge `1 → 3` has `dt = 0`).  The centroid is
`(1, 0)`. -/
def spotsD : List Spot :=
  [⟨"F1", 1, 0, 0, some 60, 0⟩, ⟨"F1", 2, 2, 0, some 120, 1⟩,
   ⟨"F1", 3, 1, 0, some 60, 5⟩]

/-- The computed columns of edge `1 → 2` over `spotsD` under the evolved
variant: displacement `(2, 0)`, `dt = 1` minute, radial velocity `-2`. -/
def colsD : ProcCols :=
  { u := 2, v := 0, source_x := 0, source_y := 0, target_x := 2, target_y := 0
    radial_distance := 1, radial_velocity := -2, radial_velocity_theta := 0
    center_x := 1, center_y := 0 }

/-- The edge `1 → 2` (`dt = 1` minute) for the evolved variant. -/
def edgesD : List Edge := [⟨"F1", 1, 2⟩]

/-- The edge `1 → 3`, which has `dt = 0` and must be dropped by the evolved
variant. -/
def edgesE : List Edge := [⟨"F1", 1, 3⟩]

/-- The sentinel degenerate edge `0 → 0`. -/
def sentinelEdge : Edge := ⟨"F1", 0, 0⟩

/-! ### General lemmas about the embedded operations -/

lemma complex_one_mk : ({ re := 1, im := 0 } : ℂ) = 1 :=
  Complex.ext (by simp) (by simp)

lemma mean_perm {l l' : List ℝ} (h : l.Perm l') : mean l = mean l' := by
  unfold mean
  rw [h.sum_eq, h.length_eq]

lemma uniqueFirst_aux_mem (l : List String) :
    ∀ (acc : List String) (y : String),
      y ∈ l.foldl (fun acc x => if x ∈ acc then acc else acc ++ [x]) acc ↔
        y ∈ acc ∨ y ∈ l := by
  induction l with
  | nil => simp
  | cons x xs ih =>
    intro acc y
    simp only [List.foldl_cons]
    by_cases hx : x ∈ acc
    · rw [if_pos hx, ih]
      constructor
      · rintro (h | h)
        · exact Or.inl h
        · exact Or.inr (List.mem_cons_of_mem _ h)
      · rintro (h | h)
        · exact Or.inl h
        · rcases List.mem_cons.mp h with rfl | h
          · exact Or.inl hx
          · exact Or.inr h
    · rw [if_neg hx, ih]
      simp only [List.mem_append, List.mem_singleton, List.mem_cons]
      tauto

lemma uniqueFirst_mem {l : List String} {y : String} :
    y ∈ uniqueFirst l ↔ y ∈ l := by
  unfold uniqueFirst
  rw [uniqueFirst_aux_mem]
  simp

lemma uniqueFirst_aux_nodup (l : List String) :
    ∀ (acc : List String), acc.Nodup →
      (l.foldl (fun acc x => if x ∈ acc then acc else acc ++ [x]) acc).Nodup := by
  induction l with
  | nil => intro acc h; simpa using h
  | cons x xs ih =>
    intro acc hacc
    simp only [List.foldl_cons]
    by_cases hx : x ∈ acc
    · rw [if_pos hx]; exact ih acc hacc
    · rw [if_neg hx]
      refine ih _ ?_
      simp [List.nodup_append, hacc, hx]

lemma uniqueFirst_nodup (l : List String) : (uniqueFirst l).Nodup :=
  uniqueFirst_aux_nodup l [] List.nodup_nil

lemma uniqueFirst_aux_shift :
    ∀ (n : ℕ) (l : List String), l.length ≤ n → ∀ (acc : List String),
      l.foldl (fun acc x => if x ∈ acc then acc else acc ++ [x]) acc =
        acc ++ (l.filter (fun y => !decide (y ∈ acc))).foldl
          (fun acc x => if x ∈ acc then acc else acc ++ [x]) [] := by
  intro n
  induction n with
  | zero =>
    intro l hl acc
    have : l = [] := List.eq_nil_of_length_eq_zero (Nat.le_zero.mp hl)
    subst this
    simp
  | succ n ih =>
    intro l hl acc
    cases l with
    | nil => simp
    | cons y ys =>
      have hys : ys.length ≤ n := Nat.le_of_succ_le_succ hl
      simp only [List.foldl_cons, List.filter_cons]
      by_cases hy : y ∈ acc
      · rw [if_pos hy, ih ys hys acc]
        simp [hy]
      · rw [if_neg hy, ih ys hys (acc ++ [y])]
        have hyy : (decide (y ∈ acc) : Bool) = false := by simp [hy]
        rw [hyy]
        simp only [Bool.not_false, if_true]
        have h1 : List.foldl (fun acc x => if x ∈ acc then acc else acc ++ [x]) []
            (y :: ys.filter (fun a => !decide (a ∈ acc))) =
            [y] ++ ((ys.filter (fun a => !decide (a ∈ acc))).filter
              (fun a => !decide (a ∈ [y]))).foldl
              (fun acc x => if x ∈ acc then acc else acc ++ [x]) [] := by
          have := ih (ys.filter (fun a => !decide (a ∈ acc)))
            (le_trans (List.length_filter_le _ _) hys) [y]
          simpa using this
        rw [h1]
        have h2 : ys.filter (fun a => !decide (a ∈ acc ++ [y])) =
            (ys.filter (fun a => !decide (a ∈ acc))).filter
              (fun a => !decide (a ∈ [y])) := by
          rw [List.filter_filter]
          apply List.filter_congr
          intro a _
          by_cases h1 : a ∈ acc <;> by_cases h2 : a = y <;> simp [h1, h2]
        rw [h2, List.append_assoc]

lemma uniqueFirst_cons (x : String) (xs : List String) :
    uniqueFirst (x :: xs) = x :: uniqueFirst (xs.filter (fun y => !decide (y = x))) := by
  have h0 : uniqueFirst (x :: xs) =
      List.foldl (fun acc x => if x ∈ acc then acc else acc ++ [x]) [x] xs := by
    unfold uniqueFirst
    simp
  rw [h0, uniqueFirst_aux_shift xs.length xs le_rfl [x]]
  have hpred : xs.filter (fun y => !decide (y ∈ [x])) = xs.filter (fun y => !decide (y = x)) := by
    apply List.filter_congr
    intro a _
    simp [List.mem_singleton]
  rw [hpred]
  rfl

lemma pafStep_error {spotT : List Spot} {edgeT : List Edge} {fid : String}
    {m : String} (h : process_file spotT edgeT fid = .error m) (acc : List Row) :
    pafStep spotT edgeT acc fid = .error m := by
  simp [pafStep, h, Bind.bind, Except.bind]

lemma pafStep_ok {spotT : List Spot} {edgeT : List Edge} {fid : String}
    {pe : List Row} (h : process_file spotT edgeT fid = .ok pe) (acc : List Row) :
    pafStep spotT edgeT acc fid = .ok (acc ++ pe) := by
  have hacc : (if pe.isEmpty then acc else acc ++ pe) = acc ++ pe := by
    cases hpe : pe.isEmpty
    · simp
    · simp [List.isEmpty_iff.mp hpe]
  simp [pafStep, h, Bind.bind, Except.bind, pure, Except.pure, hacc]

lemma process_all_files_aux (spotT : List Spot) (edgeT : List Edge) :
    ∀ (fids : List String) (acc : List Row),
      fids.foldlM (pafStep spotT edgeT) acc =
        (concatPerFile spotT edgeT fids).map (fun rs => acc ++ rs) := by
  intro fids
  induction fids with
  | nil =>
    intro acc
    simp [concatPerFile, Except.map, pure, Except.pure]
  | cons fid rest ih =>
    intro acc
    rw [List.foldlM_cons]
    simp only [concatPerFile]
    cases hpf : process_file spotT edgeT fid with
    | error m =>
      rw [pafStep_error hpf acc]
      rfl
    | ok pe =>
      rw [pafStep_ok hpf acc]
      have hbind : ∀ (b : List Row) (k : List Row → Except String (List Row)),
          ((Except.ok b : Except String (List Row)) >>= k) = k b := fun _ _ => rfl
      rw [hbind, hbind, ih (acc ++ pe)]
      cases hg : concatPerFile spotT edgeT rest with
      | error m => rfl
      | ok rs =>
        simp only [hbind, Except.map, pure, Except.pure]
        congr 1
        cases hpe : pe.isEmpty
        · simp [List.append_assoc]
        · simp [List.isEmpty_iff.mp hpe]

lemma process_all_files_eq_concat (spotT : List Spot) (edgeT : List Edge) :
    process_all_files spotT edgeT =
      concatPerFile spotT edgeT (uniqueFirst (spotT.map Spot.fileId)) := by
  unfold process_all_files
  rw [process_all_files_aux]
  cases hg : concatPerFile spotT edgeT (uniqueFirst (spotT.map Spot.fileId)) <;>
    simp [Except.map]

lemma concatPerFile_ok_mem {spotT : List Spot} {edgeT : List Edge} :
    ∀ {fids : List String} {rows : List Row},
      concatPerFile spotT edgeT fids = .ok rows → ∀ {row : Row}, row ∈ rows →
        ∃ fid ∈ fids, ∃ rws, process_file spotT edgeT fid = .ok rws ∧ row ∈ rws := by
  intro fids
  induction fids with
  | nil =>
    intro rows h row hrow
    simp only [concatPerFile] at h
    cases h
    simp at hrow
  | cons fid rest ih =>
    intro rows h row hrow
    simp only [concatPerFile] at h
    cases hpf : process_file spotT edgeT fid with
    | error m => simp [hpf, Bind.bind, Except.bind] at h
    | ok pe =>
      rw [hpf] at h
      simp only [Bind.bind, Except.bind] at h
      cases hg : concatPerFile spotT edgeT rest with
      | error m => simp [hg] at h
      | ok rs =>
        rw [hg] at h
        simp only [pure, Except.pure, Except.ok.injEq] at h
        subst h
        by_cases hpe : pe.isEmpty = true
        · rw [if_pos hpe] at hrow
          obtain ⟨f, hf, hws⟩ := ih hg hrow
          exact ⟨f, List.mem_cons_of_mem _ hf, hws⟩
        · rw [if_neg hpe] at hrow
          rcases List.mem_append.mp hrow with hmem | hmem
          · exact ⟨fid, List.mem_cons_self _ _, pe, hpf, hmem⟩
          · obtain ⟨f, hf, hws⟩ := ih hg hmem
            exact ⟨f, List.mem_cons_of_mem _ hf, hws⟩

lemma process_file_ok_cases {spotT : List Spot} {edgeT : List Edge} {fid : String}
    {rows : List Row} (h : process_file spotT edgeT fid = .ok rows) :
    (((spotsOf spotT fid).isEmpty || (edgesOf edgeT fid).isEmpty) = true ∧
       rows = (edgesOf edgeT fid).map (fun e => ⟨e, none, none⟩)) ∨
    (((spotsOf spotT fid).isEmpty || (edgesOf edgeT fid).isEmpty) = false ∧
       (valsOf spotT edgeT fid).length = (edgesOf edgeT fid).length ∧
       rows = ((edgesOf edgeT fid).zip (valsOf spotT edgeT fid)).map
         (fun p => ⟨p.1, some p.2, none⟩)) := by
  unfold process_file at h
  by_cases hemp : ((spotsOf spotT fid).isEmpty || (edgesOf edgeT fid).isEmpty) = true
  · rw [if_pos hemp] at h
    cases h
    exact Or.inl ⟨hemp, rfl⟩
  · rw [if_neg hemp] at h
    by_cases hlen : (valsOf spotT edgeT fid).length = (edgesOf edgeT fid).length
    · rw [if_pos hlen] at h
      cases h
      exact Or.inr ⟨Bool.not_eq_true _ ▸ eq_false_of_ne_true hemp, hlen, rfl⟩
    · rw [if_neg hlen] at h
      cases h

lemma zip_filterMap_self {α β : Type _} {f : α → Option β} :
    ∀ {l : List α}, (l.filterMap f).length = l.length →
      ∀ {a : α} {b : β}, (a, b) ∈ l.zip (l.filterMap f) → f a = some b := by
  intro l
  induction l with
  | nil =>
    intro _ a b hmem
    simp at hmem
  | cons x xs ih =>
    intro hlen a b hmem
    cases hfx : f x with
    | none =>
      exfalso
      rw [List.filterMap_cons_none hfx] at hlen
      have := List.length_filterMap_le f xs
      simp only [List.length_cons] at hlen
      omega
    | some y =>
      rw [List.filterMap_cons_some hfx] at hlen hmem
      simp only [List.length_cons] at hlen
      simp only [List.zip_cons_cons, List.mem_cons] at hmem
      rcases hmem with heq | hmem
      · injection heq with h1 h2
        subst h1; subst h2
        exact hfx
      · exact ih (Nat.succ_injective hlen) hmem

lemma filterMap_full_zip_mem {α β : Type _} {f : α → Option β} :
    ∀ {l : List α}, (l.filterMap f).length = l.length →
      ∀ {a : α}, a ∈ l → ∃ b, f a = some b ∧ (a, b) ∈ l.zip (l.filterMap f) := by
  intro l
  induction l with
  | nil =>
    intro _ a ha
    simp at ha
  | cons x xs ih =>
    intro hlen a ha
    cases hfx : f x with
    | none =>
      exfalso
      rw [List.filterMap_cons_none hfx] at hlen
      have := List.length_filterMap_le f xs
      simp only [List.length_cons] at hlen
      omega
    | some y =>
      rw [List.filterMap_cons_some hfx] at hlen ⊢
      simp only [List.length_cons] at hlen
      rcases List.mem_cons.mp ha with rfl | ha'
      · exact ⟨y, hfx, by simp [List.zip_cons_cons]⟩
      · obtain ⟨b, hfb, hmem⟩ := ih (Nat.succ_injective hlen) ha'
        exact ⟨b, hfb, by simp [List.zip_cons_cons, hmem]⟩

lemma process_file_emits {spotT : List Spot} {edgeT : List Edge} {fid : String}
    {rows : List Row} {e : Edge} {s : Spot}
    (hok : process_file spotT edgeT fid = .ok rows)
    (he : e ∈ edgesOf edgeT fid)
    (hs : (spotsOf spotT fid).find? (fun s' => s'.id == e.sourceId) = some s) :
    ∃ c : ProcCols,
      computeRow (spotsOf spotT fid)
        (mean ((spotsOf spotT fid).map Spot.x))
        (mean ((spotsOf spotT fid).map Spot.y)) e = some c ∧
      (⟨e, some c, none⟩ : Row) ∈ rows := by
  rcases process_file_ok_cases hok with ⟨hemp, hrw⟩ | ⟨-, hlen, hrw⟩
  · exfalso
    have hsne : spotsOf spotT fid ≠ [] := by
      intro h0
      rw [h0] at hs
      cases hs
    have hene : edgesOf edgeT fid ≠ [] := List.ne_nil_of_mem he
    simp only [Bool.or_eq_true, List.isEmpty_iff] at hemp
    rcases hemp with h | h
    · exact hsne h
    · exact hene h
  · subst hrw
    unfold valsOf at hlen
    obtain ⟨c, hc, hzip⟩ := filterMap_full_zip_mem hlen he
    refine ⟨c, hc, ?_⟩
    have := List.mem_map_of_mem
      (fun p : Edge × ProcCols => (⟨p.1, some p.2, none⟩ : Row)) hzip
    simpa only [valsOf] using this

lemma process_file_map_edge {spotT : List Spot} {edgeT : List Edge} {fid : String}
    {rows : List Row} (h : process_file spotT edgeT fid = .ok rows) :
    rows.map Row.edge = edgesOf edgeT fid := by
  rcases process_file_ok_cases h with ⟨_, rfl⟩ | ⟨_, hlen, rfl⟩
  · rw [List.map_map]
    exact List.map_id _
  · rw [List.map_map]
    have : (Row.edge ∘ fun p : Edge × ProcCols => Row.mk p.1 (some p.2) none) =
        Prod.fst := rfl
    rw [this, List.map_fst_zip]
    omega

lemma process_file_mem_some {spotT : List Spot} {edgeT : List Edge} {fid : String}
    {rows : List Row} {e : Edge} {c : ProcCols} {p : Option ℝ}
    (h : process_file spotT edgeT fid = .ok rows) (hmem : ⟨e, some c, p⟩ ∈ rows) :
    e ∈ edgesOf edgeT fid ∧
      computeRow (spotsOf spotT fid)
        (mean ((spotsOf spotT fid).map Spot.x))
        (mean ((spotsOf spotT fid).map Spot.y)) e = some c := by
  rcases process_file_ok_cases h with ⟨_, rfl⟩ | ⟨_, hlen, rfl⟩
  · exfalso
    rcases List.mem_map.mp hmem with ⟨e', _, heq⟩
    cases heq
  · rcases List.mem_map.mp hmem with ⟨⟨e', c'⟩, hzip, heq⟩
    injection heq with h1 h2 h3
    cases h2
    subst h1
    refine ⟨(List.of_mem_zip hzip).1, ?_⟩
    exact zip_filterMap_self hlen hzip

lemma computeRow_some_spec {spots : List Spot} {cx cy : ℝ} {e : Edge} {c : ProcCols}
    (h : computeRow spots cx cy e = some c) :
    ∃ s t : Spot,
      spots.find? (fun s' => s'.id == e.sourceId) = some s ∧
      spots.find? (fun t' => t'.id == e.targetId) = some t ∧
      c.u = t.x - s.x ∧ c.v = t.y - s.y ∧
      c.source_x = s.x ∧ c.source_y = s.y ∧
      c.target_x = t.x ∧ c.target_y = t.y ∧
      c.center_x = cx ∧ c.center_y = cy ∧
      c.radial_distance = Real.sqrt ((s.x - cx) ^ 2 + (s.y - cy) ^ 2) ∧
      (c.radial_distance ≠ 0 →
        c.radial_velocity =
          -(c.u * ((cx - s.x) / c.radial_distance) + c.v * ((cy - s.y) / c.radial_distance)) ∧
        c.radial_velocity_theta =
          atan2 ((cy - s.y) / c.radial_distance) ((cx - s.x) / c.radial_distance)) ∧
      (c.radial_distance = 0 → c.radial_velocity = 0 ∧ c.radial_velocity_theta = 0) := by
  unfold computeRow at h
  split at h
  next s t hs ht =>
    simp only at h
    split at h
    next hr =>
      cases h
      exact ⟨s, t, hs, ht, rfl, rfl, rfl, rfl, rfl, rfl, rfl, rfl, rfl,
        fun _ => ⟨rfl, rfl⟩, fun hzero => absurd hzero hr⟩
    next hr =>
      cases h
      push_neg at hr
      exact ⟨s, t, hs, ht, rfl, rfl, rfl, rfl, rfl, rfl, rfl, rfl, rfl,
        fun hne => absurd hr hne, fun _ => ⟨rfl, rfl⟩⟩
  next hfall =>
    cases h

lemma computeRow_geom {spots : List Spot} {cx cy : ℝ} {e : Edge} {c : ProcCols}
    (h : computeRow spots cx cy e = some c) (hr : c.radial_distance ≠ 0) :
    0 < c.radial_distance ∧
    c.radial_distance ^ 2 =
      (c.center_x - c.source_x) ^ 2 + (c.center_y - c.source_y) ^ 2 ∧
    c.radial_velocity =
      -(c.u * (c.center_x - c.source_x) + c.v * (c.center_y - c.source_y)) /
        c.radial_distance := by
  obtain ⟨s, t, hs, ht, hu, hv, hsx, hsy, htx, hty, hcx, hcy, hrd, hpos, hzero⟩ :=
    computeRow_some_spec h
  have hrnn : 0 ≤ c.radial_distance := hrd ▸ Real.sqrt_nonneg _
  have hrpos : 0 < c.radial_distance := lt_of_le_of_ne hrnn (Ne.symm hr)
  have hsq : c.radial_distance ^ 2 = (s.x - cx) ^ 2 + (s.y - cy) ^ 2 := by
    rw [hrd]
    exact Real.sq_sqrt (by positivity)
  obtain ⟨hrv, -⟩ := hpos hr
  refine ⟨hrpos, ?_, ?_⟩
  · rw [hsq, hcx, hcy, hsx, hsy]
    ring
  · rw [hrv, hcx, hcy, hsx, hsy]
    field_simp

lemma computeRow_rv_sq_le {spots : List Spot} {cx cy : ℝ} {e : Edge} {c : ProcCols}
    (h : computeRow spots cx cy e = some c) :
    c.radial_velocity ^ 2 ≤ c.u ^ 2 + c.v ^ 2 := by
  by_cases hr : c.radial_distance = 0
  · obtain ⟨s, t, hs, ht, hu, hv, hsx, hsy, htx, hty, hcx, hcy, hrd, hpos, hzero⟩ :=
      computeRow_some_spec h
    rw [(hzero hr).1]
    simpa using add_nonneg (sq_nonneg c.u) (sq_nonneg c.v)
  · obtain ⟨hrpos, hsq, hrv⟩ := computeRow_geom h hr
    set dx := c.center_x - c.source_x
    set dy := c.center_y - c.source_y
    set r := c.radial_distance
    have hdsq : 0 < dx ^ 2 + dy ^ 2 := by rw [← hsq]; positivity
    have h1 : (c.u * dx + c.v * dy) ^ 2 ≤ (c.u ^ 2 + c.v ^ 2) * (dx ^ 2 + dy ^ 2) := by
      nlinarith [sq_nonneg (c.u * dy - c.v * dx)]
    have h2 : c.radial_velocity ^ 2 = (c.u * dx + c.v * dy) ^ 2 / r ^ 2 := by
      rw [hrv]
      field_simp
      ring
    rw [h2, hsq, div_le_iff₀ hdsq]
    calc (c.u * dx + c.v * dy) ^ 2 ≤ (c.u ^ 2 + c.v ^ 2) * (dx ^ 2 + dy ^ 2) := h1

lemma process_file_v2_mem {spotT : List Spot} {edgeT : List Edge} {fid : String}
    {e : Edge} {co : Option ProcCols} {p : Option ℝ}
    (hmem : (⟨e, co, p⟩ : Row) ∈ process_file_v2 spotT edgeT fid) :
    e ∈ edgesOf edgeT fid ∧ (e.sourceId == 0 && e.targetId == 0) = false ∧ p = none ∧
    ∃ c : ProcCols, co = some c ∧
      computeRowV2 (spotsOf spotT fid)
        (mean ((spotsOf spotT fid).map Spot.x))
        (mean ((spotsOf spotT fid).map Spot.y)) e = some c := by
  simp only [process_file_v2] at hmem
  split at hmem
  · simp at hmem
  · rcases List.mem_filterMap.mp hmem with ⟨e', he', hmap⟩
    rcases Option.map_eq_some'.mp hmap with ⟨c, hc, heq⟩
    injection heq with h1 h2 h3
    subst h1
    rcases List.mem_filter.mp he' with ⟨hin, hpred⟩
    refine ⟨hin, ?_, h3.symm, c, h2.symm, hc⟩
    rwa [Bool.not_eq_true'] at hpred

lemma computeRowV2_some_spec {spots : List Spot} {cx cy : ℝ} {e : Edge} {c : ProcCols}
    (h : computeRowV2 spots cx cy e = some c) :
    ∃ s t : Spot,
      spots.find? (fun s' => s'.id == e.sourceId) = some s ∧
      spots.find? (fun t' => t'.id == e.targetId) = some t ∧
      dtMinutes s t ≠ 0 ∧
      c.u = t.x - s.x ∧ c.v = t.y - s.y ∧
      c.source_x = s.x ∧ c.source_y = s.y ∧
      c.center_x = cx ∧ c.center_y = cy ∧
      c.radial_distance = Real.sqrt ((cx - s.x) ^ 2 + (cy - s.y) ^ 2) ∧
      c.radial_distance ≠ 0 ∧
      c.radial_velocity =
        -(c.u * ((cx - s.x) / c.radial_distance) + c.v * ((cy - s.y) / c.radial_distance)) /
          dtMinutes s t := by
  unfold computeRowV2 at h
  split at h
  next s t hs ht =>
    simp only at h
    split at h
    next hdt => cases h
    next hdt =>
      split at h
      next hrz => cases h
      next hrz =>
        cases h
        exact ⟨s, t, hs, ht, hdt, rfl, rfl, rfl, rfl, rfl, rfl, rfl, hrz, rfl⟩
  next hfall =>
    cases h

lemma computeRowV2_dt_zero {spots : List Spot} {cx cy : ℝ} {e : Edge} {s t : Spot}
    (hs : spots.find? (fun s' => s'.id == e.sourceId) = some s)
    (ht : spots.find? (fun t' => t'.id == e.targetId) = some t)
    (hdt : dtMinutes s t = 0) :
    computeRowV2 spots cx cy e = none := by
  unfold computeRowV2
  rw [hs, ht]
  simp [hdt]

lemma heap_get_alloc_of_lt {h : Heap} {r : Nat} (t : Table) (hr : r < h.fresh) :
    ((h.alloc t).1).get r = h.get r := by
  simp only [Heap.alloc, Heap.get]
  rw [if_neg (Nat.ne_of_lt hr)]

lemma heap_get_set_of_ne {h : Heap} {r q : Nat} (t : Table) (hne : q ≠ r) :
    (h.set r t).get q = h.get q := by
  simp only [Heap.set, Heap.get]
  rw [if_neg hne]

lemma processFileH_get {h : Heap} {a : RadialAnalyzer} {fid : String} {r : Nat}
    (hr : r < h.fresh) : ((processFileH h a fid).1).get r = h.get r := by
  unfold processFileH
  cases hpf : process_file a.spot_table ((h.get a.edge_ref).map Row.edge) fid with
  | ok rows => exact heap_get_alloc_of_lt rows hr
  | error m => rfl

lemma processFileH_fresh (h : Heap) (a : RadialAnalyzer) (fid : String) :
    h.fresh ≤ ((processFileH h a fid).1).fresh := by
  unfold processFileH
  cases hpf : process_file a.spot_table ((h.get a.edge_ref).map Row.edge) fid with
  | ok rows => exact Nat.le_succ _
  | error m => exact le_rfl

lemma processAllFilesH_get {h : Heap} {a : RadialAnalyzer} {r : Nat}
    (hr : r < h.fresh) : ((processAllFilesH h a).1).get r = h.get r := by
  unfold processAllFilesH
  cases hpf : process_all_files a.spot_table ((h.get a.edge_ref).map Row.edge) with
  | ok rows => exact heap_get_alloc_of_lt rows hr
  | error m => rfl

lemma processAllFilesH_ok_ref {h : Heap} {a : RadialAnalyzer} {oref : Nat}
    (hok : (processAllFilesH h a).2 = .ok oref) : oref = h.fresh := by
  unfold processAllFilesH at hok
  cases hpf : process_all_files a.spot_table ((h.get a.edge_ref).map Row.edge) with
  | ok rows =>
    rw [hpf] at hok
    injection hok with h1
    exact h1.symm
  | error m =>
    rw [hpf] at hok
    cases hok

lemma calcPersistenceH_get {h : Heap} {r q : Nat} (hne : q ≠ r) :
    ((calcPersistenceH h r).1).get q = h.get q := by
  simp only [calcPersistenceH]
  split
  · exact heap_get_set_of_ne _ hne
  · rfl

lemma edgesOf_fileId_mem {edgeT : List Edge} {fid : String} {e : Edge}
    (h : e ∈ edgesOf edgeT fid) : e.fileId = fid := by
  unfold edgesOf at h
  rcases List.mem_filter.mp h with ⟨-, hpred⟩
  simpa using hpred

lemma edgesOf_filter_ne (edgeT : List Edge) (f2 fid : String) (hne : fid ≠ f2) :
    edgesOf (edgeT.filter (fun e => !(e.fileId == f2))) fid = edgesOf edgeT fid := by
  unfold edgesOf
  rw [List.filter_filter]
  apply List.filter_congr
  intro e _
  by_cases h : e.fileId = fid
  · have h2 : e.fileId ≠ f2 := by rw [h]; exact hne
    simp [h, h2, hne]
  · simp [h]

lemma process_file_congr_edges {spotT : List Spot} {edgeT edgeT' : List Edge}
    {fid : String} (h : edgesOf edgeT fid = edgesOf edgeT' fid) :
    process_file spotT edgeT fid = process_file spotT edgeT' fid := by
  unfold process_file valsOf
  rw [h]

lemma concatPerFile_congr {spotT : List Spot} {edgeT edgeT' : List Edge} :
    ∀ {fids : List String},
      (∀ fid ∈ fids, process_file spotT edgeT fid = process_file spotT edgeT' fid) →
      concatPerFile spotT edgeT fids = concatPerFile spotT edgeT' fids := by
  intro fids
  induction fids with
  | nil => intro _; rfl
  | cons fid rest ih =>
    intro hall
    simp only [concatPerFile]
    rw [hall fid (List.mem_cons_self _ _), ih (fun f hf => hall f (List.mem_cons_of_mem _ hf))]

lemma concatPerFile_all_empty {spotT : List Spot} {edgeT : List Edge} :
    ∀ {fids : List String},
      (∀ fid ∈ fids, process_file spotT edgeT fid = .ok []) →
      concatPerFile spotT edgeT fids = .ok [] := by
  intro fids
  induction fids with
  | nil => intro _; rfl
  | cons fid rest ih =>
    intro hall
    simp only [concatPerFile]
    rw [hall fid (List.mem_cons_self _ _), ih (fun f hf => hall f (List.mem_cons_of_mem _ hf))]
    rfl

/-! ### Concrete evaluations of the engine -/

lemma atan2_zero_one : atan2 0 1 = 0 := by
  unfold atan2
  rw [complex_one_mk]
  exact Complex.arg_one

lemma spotsOfA : spotsOf spotsA "F1" = spotsA := by simp [spotsOf, spotsA]

lemma meanAx : mean (spotsA.map Spot.x) = 1 := by simp [mean, spotsA]

lemma meanAy : mean (spotsA.map Spot.y) = 0 := by simp [mean, spotsA]

lemma computeRowB : computeRow spotsA 1 0 ⟨"F1", 1, 2⟩ = some colsB := by
  simp [computeRow, spotsA, colsB, List.find?, Int.reduceBEq]
  norm_num [Real.sqrt_one, atan2_zero_one]

lemma process_file_evalB :
    process_file spotsA edgesB "F1" = .ok [⟨⟨"F1", 1, 2⟩, some colsB, none⟩] := by
  have hed : edgesOf edgesB "F1" = edgesB := by simp [edgesOf, edgesB]
  have hv : valsOf spotsA edgesB "F1" = [colsB] := by
    unfold valsOf
    rw [spotsOfA, hed, meanAx, meanAy]
    simp [edgesB, computeRowB]
  simp only [process_file, spotsOfA, hed, hv]
  simp [spotsA, edgesB]

lemma process_file_evalA :
    process_file spotsA edgesA "F1" =
      .error "Length of values does not match length of index" := by
  have hed : edgesOf edgesA "F1" = edgesA := by simp [edgesOf, edgesA]
  have hcr13 : computeRow spotsA 1 0 ⟨"F1", 1, 3⟩ = none := by
    simp [computeRow, spotsA, List.find?, Int.reduceBEq]
  have hv : valsOf spotsA edgesA "F1" = [colsB] := by
    unfold valsOf
    rw [spotsOfA, hed, meanAx, meanAy]
    simp [edgesA, computeRowB, hcr13]
  simp only [process_file, spotsOfA, hed, hv]
  simp [spotsA, edgesA]

lemma spotsOfC : spotsOf spotsC "F1" = spotsC := by simp [spotsOf, spotsC]

lemma meanCx : mean (spotsC.map Spot.x) = 1 := by simp [mean, spotsC]; norm_num

lemma meanCy : mean (spotsC.map Spot.y) = 0 := by simp [mean, spotsC]

lemma process_file_evalC :
    process_file spotsC edgesC "F1" = .ok [⟨⟨"F1", 3, 2⟩, some colsC, none⟩] := by
  have hed : edgesOf edgesC "F1" = edgesC := by simp [edgesOf, edgesC]
  have hcr : computeRow spotsC 1 0 ⟨"F1", 3, 2⟩ = some colsC := by
    simp [computeRow, spotsC, colsC, List.find?, Int.reduceBEq]
    norm_num [Real.sqrt_zero]
  have hv : valsOf spotsC edgesC "F1" = [colsC] := by
    unfold valsOf
    rw [spotsOfC, hed, meanCx, meanCy]
    simp [edgesC, hcr]
  simp only [process_file, spotsOfC, hed, hv]
  simp [spotsC, edgesC]

lemma spotsOfD : spotsOf spotsD "F1" = spotsD := by simp [spotsOf, spotsD]

lemma meanDx : mean (spotsD.map Spot.x) = 1 := by simp [mean, spotsD]; norm_num

lemma meanDy : mean (spotsD.map Spot.y) = 0 := by simp [mean, spotsD]

lemma process_file_v2_evalD :
    process_file_v2 spotsD edgesD "F1" = [⟨⟨"F1", 1, 2⟩, some colsD, none⟩] := by
  have hed : (edgesOf edgesD "F1").filter
      (fun e => !(e.sourceId == 0 && e.targetId == 0)) = edgesD := by
    simp [edgesOf, edgesD, Int.reduceBEq]
  have hcr : computeRowV2 spotsD 1 0 ⟨"F1", 1, 2⟩ = some colsD := by
    simp [computeRowV2, dtMinutes, spotsD, colsD, List.find?, Int.reduceBEq]
    norm_num [Real.sqrt_one, atan2_zero_one]
  simp only [process_file_v2, spotsOfD, meanDx, meanDy, hed]
  rw [if_neg (by simp [spotsD, edgesD])]
  simp only [edgesD, List.filterMap_cons, List.filterMap_nil, hcr, Option.map_some']

lemma process_file_v2_evalE :
    process_file_v2 spotsD edgesE "F1" = [] := by
  have hed : (edgesOf edgesE "F1").filter
      (fun e => !(e.sourceId == 0 && e.targetId == 0)) = edgesE := by
    simp [edgesOf, edgesE, Int.reduceBEq]
  have hcr : computeRowV2 spotsD 1 0 ⟨"F1", 1, 3⟩ = none := by
    simp [computeRowV2, dtMinutes, spotsD, List.find?, Int.reduceBEq]
  simp only [process_file_v2, spotsOfD, meanDx, meanDy, hed]
  rw [if_neg (by simp [spotsD, edgesE])]
  simp only [edgesE, List.filterMap_cons, List.filterMap_nil, hcr, Option.map_none']

lemma v2_filter_sentinel_insert (edgeT : List Edge) (fid : String) (e : Edge)
    (h0 : e.sourceId = 0) (h1 : e.targetId = 0) :
    (edgesOf (e :: edgeT) fid).filter
        (fun e => !(e.sourceId == 0 && e.targetId == 0)) =
      (edgesOf edgeT fid).filter
        (fun e => !(e.sourceId == 0 && e.targetId == 0)) := by
  unfold edgesOf
  by_cases hf : (e.fileId == fid) = true
  · simp [List.filter_cons, hf, h0, h1]
  · simp [List.filter_cons, hf]

lemma process_file_v2_sentinel_insert (spotT : List Spot) (edgeT : List Edge)
    (fid : String) (e : Edge) (h0 : e.sourceId = 0) (h1 : e.targetId = 0) :
    process_file_v2 spotT (e :: edgeT) fid = process_file_v2 spotT edgeT fid := by
  simp only [process_file_v2, v2_filter_sentinel_insert edgeT fid e h0 h1]

/-! ### The claims -/

/-- C1.  The claim says an edge whose `SPOT_SOURCE_ID` or `SPOT_TARGET_ID` does
not resolve is skipped and `process_file` completes normally.  In the code the
`continue` does skip the edge inside the loop, but the parallel value lists then
come out shorter than the edge frame, and the column assignment
`edges.loc[:, 'u'] = u_values` raises a pandas `ValueError`: on a file whose
edge table holds the resolvable edge `1 → 2` and the edge `1 → 3` with no spot
`3`, the lookup for spot `3` is empty and `process_file` raises instead of
returning the remaining processed edges. -/
theorem c1_missing_reference_raises :
    (spotsA.find? (fun s => s.id == (3 : Int)) = none) ∧
    process_file spotsA edgesA "F1" =
      .error "Length of values does not match length of index" := by
  constructor
  · simp [spotsA, List.find?, Int.reduceBEq]
  · exact process_file_evalA

/-- C2 counterexample.  On file `F1` with spots `1 ↦ (0,0)` and `2 ↦ (2,0)`
(centroid `(1,0)`) the single edge `1 → 2` has displacement `(2,0)`, which is
`2 ·` the inward vector `(1,0)` — it points directly toward the centroid — yet
the emitted `radial_velocity` is `-2`, not positive as the claim demands. -/
theorem c2_sign_convention_counterexample :
    process_file spotsA edgesB "F1" = .ok [⟨⟨"F1", 1, 2⟩, some colsB, none⟩] ∧
    colsB.u = 2 * (colsB.center_x - colsB.source_x) ∧
    colsB.v = 2 * (colsB.center_y - colsB.source_y) ∧
    ¬ (0 < colsB.radial_velocity) := by
  refine ⟨process_file_evalB, ?_, ?_, ?_⟩ <;> norm_num [colsB]

/-- C2 amended.  The engine's sign convention is outward-positive: for every
emitted edge whose source is not at the centroid, a displacement that is a
positive multiple of the inward vector yields `radial_velocity < 0`, a
displacement that is a negative multiple yields `radial_velocity > 0`, and a
displacement orthogonal to the inward vector yields `radial_velocity = 0`. -/
theorem c2_radial_velocity_sign_amended
    (spotT : List Spot) (edgeT : List Edge) (fid : String) (rows : List Row)
    (e : Edge) (c : ProcCols) (p : Option ℝ) (lam : ℝ)
    (hok : process_file spotT edgeT fid = .ok rows)
    (hmem : (⟨e, some c, p⟩ : Row) ∈ rows)
    (hr : c.radial_distance ≠ 0) (hlam : 0 < lam) :
    (c.u = lam * (c.center_x - c.source_x) ∧ c.v = lam * (c.center_y - c.source_y) →
      c.radial_velocity < 0) ∧
    (c.u = -lam * (c.center_x - c.source_x) ∧ c.v = -lam * (c.center_y - c.source_y) →
      0 < c.radial_velocity) ∧
    (c.u * (c.center_x - c.source_x) + c.v * (c.center_y - c.source_y) = 0 →
      c.radial_velocity = 0) := by
  obtain ⟨-, hcr⟩ := process_file_mem_some hok hmem
  obtain ⟨hrpos, hsq, hrv⟩ := computeRow_geom hcr hr
  refine ⟨?_, ?_, ?_⟩
  · rintro ⟨hu, hv⟩
    rw [hrv, hu, hv]
    have hdot : lam * (c.center_x - c.source_x) * (c.center_x - c.source_x) +
        lam * (c.center_y - c.source_y) * (c.center_y - c.source_y) =
        lam * c.radial_distance ^ 2 := by
      rw [hsq]; ring
    rw [hdot]
    have hnum : 0 < lam * c.radial_distance ^ 2 := by positivity
    exact div_neg_of_neg_of_pos (neg_neg_of_pos hnum) hrpos
  · rintro ⟨hu, hv⟩
    rw [hrv, hu, hv]
    have hdot : -lam * (c.center_x - c.source_x) * (c.center_x - c.source_x) +
        -lam * (c.center_y - c.source_y) * (c.center_y - c.source_y) =
        -(lam * c.radial_distance ^ 2) := by
      rw [hsq]; ring
    rw [hdot]
    have hnum : 0 < lam * c.radial_distance ^ 2 := by positivity
    have : (0:ℝ) < lam * c.radial_distance ^ 2 / c.radial_distance :=
      div_pos hnum hrpos
    calc (0:ℝ) < lam * c.radial_distance ^ 2 / c.radial_distance := this
      _ = - -(lam * c.radial_distance ^ 2) / c.radial_distance := by ring_nf
  · intro hdot
    rw [hrv, hdot]
    norm_num

/-- Witness for the amended C2 at the concrete table: the emitted edge `1 → 2`
of `spotsA` moves directly toward the centroid and its radial velocity is
negative. -/
theorem c2_radial_velocity_sign_amended_witness : colsB.radial_velocity < 0 := by
  have h := c2_radial_velocity_sign_amended spotsA edgesB "F1"
    [⟨⟨"F1", 1, 2⟩, some colsB, none⟩] ⟨"F1", 1, 2⟩ colsB none 2
    process_file_evalB (List.mem_singleton.mpr rfl)
    (by norm_num [colsB]) (by norm_num)
  exact h.1 ⟨by norm_num [colsB], by norm_num [colsB]⟩

/-- C6 counterexample.  On file `F1` with spots `1 ↦ (0,0)`, `2 ↦ (2,0)`,
`3 ↦ (1,0)` the centroid is `(1,0)` and coincides with spot `3`; the edge
`3 → 2` has radial distance `0`, yet it appears in the output table (with
zero radial velocity and angle) instead of being excluded as the claim says. -/
theorem c6_center_edge_counterexample :
    process_file spotsC edgesC "F1" = .ok [⟨⟨"F1", 3, 2⟩, some colsC, none⟩] ∧
    colsC.radial_distance = 0 ∧
    ([(⟨⟨"F1", 3, 2⟩, some colsC, none⟩ : Row)] : List Row) ≠ [] := by
  exact ⟨process_file_evalC, rfl, by simp⟩

/-- C6 amended.  An edge of the file whose source spot lies exactly at the
per-file centroid is not excluded: whenever `process_file` returns an output
table, that edge is emitted in it, carrying `radial_distance = 0`,
`radial_velocity = 0` and `radial_velocity_theta = 0`. -/
theorem c6_center_edge_amended
    (spotT : List Spot) (edgeT : List Edge) (fid : String) (rows : List Row)
    (e : Edge) (s : Spot)
    (hok : process_file spotT edgeT fid = .ok rows)
    (he : e ∈ edgesOf edgeT fid)
    (hs : (spotsOf spotT fid).find? (fun s' => s'.id == e.sourceId) = some s)
    (hsx : s.x = mean ((spotsOf spotT fid).map Spot.x))
    (hsy : s.y = mean ((spotsOf spotT fid).map Spot.y)) :
    ∃ c : ProcCols, (⟨e, some c, none⟩ : Row) ∈ rows ∧
      c.radial_distance = 0 ∧ c.radial_velocity = 0 ∧
      c.radial_velocity_theta = 0 := by
  obtain ⟨c, hcr, hmem⟩ := process_file_emits hok he hs
  obtain ⟨s', t', hs', ht', hu, hv, hsx', hsy', htx, hty, hcx, hcy, hrd, hpos, hzero⟩ :=
    computeRow_some_spec hcr
  rw [hs] at hs'
  injection hs' with hss
  subst hss
  have h0 : c.radial_distance = 0 := by
    rw [hrd, hsx, hsy]
    simp
  exact ⟨c, hmem, h0, (hzero h0).1, (hzero h0).2⟩

/-- Witness for the amended C6 at the concrete table: the edge `3 → 2` of
`spotsC`, whose source spot `3` sits exactly at the centroid `(1, 0)`, is
emitted in the output with zero radial distance, velocity and angle. -/
theorem c6_center_edge_amended_witness :
    (⟨⟨"F1", 3, 2⟩, some colsC, none⟩ : Row) ∈
      [(⟨⟨"F1", 3, 2⟩, some colsC, none⟩ : Row)] ∧
    colsC.radial_distance = 0 ∧ colsC.radial_velocity = 0 ∧
    colsC.radial_velocity_theta = 0 := by
  have he : (⟨"F1", 3, 2⟩ : Edge) ∈ edgesOf edgesC "F1" := by
    simp [edgesOf, edgesC]
  have hs : (spotsOf spotsC "F1").find?
      (fun s' => s'.id == (⟨"F1", 3, 2⟩ : Edge).sourceId) =
      some ⟨"F1", 3, 1, 0, none, 0⟩ := by
    rw [spotsOfC]
    simp [spotsC, List.find?, Int.reduceBEq]
  have hsx : (⟨"F1", 3, 1, 0, none, 0⟩ : Spot).x =
      mean ((spotsOf spotsC "F1").map Spot.x) := by
    rw [spotsOfC, meanCx]
  have hsy : (⟨"F1", 3, 1, 0, none, 0⟩ : Spot).y =
      mean ((spotsOf spotsC "F1").map Spot.y) := by
    rw [spotsOfC, meanCy]
  obtain ⟨c, hcmem, hrd, hrv, hth⟩ :=
    c6_center_edge_amended spotsC edgesC "F1"
      [⟨⟨"F1", 3, 2⟩, some colsC, none⟩] ⟨"F1", 3, 2⟩ ⟨"F1", 3, 1, 0, none, 0⟩
      process_file_evalC he hs hsx hsy
  have heq := List.mem_singleton.mp hcmem
  injection heq with h1 h2 h3
  injection h2 with hc
  subst hc
  exact ⟨List.mem_singleton.mpr rfl, hrd, hrv, hth⟩

/-- C3, settled against the spec-modelled evolved variant (the naive
`process_file` in the available sources has no elapsed-time handling at all).
For every edge whose endpoints resolve to spots `s` and `t`: every emitted
record carries `radial_velocity` equal to the inward projection divided by
`dtMinutes s t` (which prefers `POSITION_T` seconds converted to minutes on
both endpoints and otherwise falls back to `(frame difference) * 600 / 60`),
with `dtMinutes s t ≠ 0`; and when `dtMinutes s t = 0` the edge is excluded
from the output. -/
theorem c3_v2_dt_normalization
    (spotT : List Spot) (edgeT : List Edge) (fid : String) (e : Edge) (s t : Spot)
    (hs : (spotsOf spotT fid).find? (fun s' => s'.id == e.sourceId) = some s)
    (ht : (spotsOf spotT fid).find? (fun t' => t'.id == e.targetId) = some t) :
    (∀ c : ProcCols, (⟨e, some c, none⟩ : Row) ∈ process_file_v2 spotT edgeT fid →
        dtMinutes s t ≠ 0 ∧
        c.radial_velocity =
          -(c.u * ((c.center_x - s.x) / c.radial_distance) +
              c.v * ((c.center_y - s.y) / c.radial_distance)) / dtMinutes s t) ∧
    (dtMinutes s t = 0 → ∀ (co : Option ProcCols) (q : Option ℝ),
        (⟨e, co, q⟩ : Row) ∉ process_file_v2 spotT edgeT fid) := by
  constructor
  · intro c hmem
    obtain ⟨-, -, -, c', hc', hcr⟩ := process_file_v2_mem hmem
    injection hc' with hcc
    subst hcc
    obtain ⟨s', t', hs', ht', hdt', hu, hv, hsx, hsy, hcx, hcy, hrd, hrne, hrv⟩ :=
      computeRowV2_some_spec hcr
    rw [hs] at hs'
    rw [ht] at ht'
    injection hs' with hss
    injection ht' with htt
    subst hss
    subst htt
    refine ⟨hdt', ?_⟩
    rw [hrv, hcx, hcy]
  · intro hdt co q hmem
    obtain ⟨-, -, -, c', hc', hcr⟩ := process_file_v2_mem hmem
    rw [computeRowV2_dt_zero hs ht hdt] at hcr
    cases hcr

/-- Witness for C3 at concrete tables: the edge `1 → 2` of `spotsD` (source at
`60 s`, target at `120 s`, so `dt = 1` minute) is emitted with the
`dt`-normalized radial velocity, and the edge `1 → 3` (both endpoints at
`60 s`, so `dt = 0`) is excluded from the output. -/
theorem c3_v2_dt_normalization_witness :
    (dtMinutes ⟨"F1", 1, 0, 0, some 60, 0⟩ ⟨"F1", 2, 2, 0, some 120, 1⟩ ≠ 0 ∧
      colsD.radial_velocity =
        -(colsD.u * ((colsD.center_x - 0) / colsD.radial_distance) +
            colsD.v * ((colsD.center_y - 0) / colsD.radial_distance)) /
          dtMinutes ⟨"F1", 1, 0, 0, some 60, 0⟩ ⟨"F1", 2, 2, 0, some 120, 1⟩) ∧
    (⟨⟨"F1", 1, 3⟩, some colsD, none⟩ : Row) ∉ process_file_v2 spotsD edgesE "F1" := by
  have hs12 : (spotsOf spotsD "F1").find?
      (fun s' => s'.id == (⟨"F1", 1, 2⟩ : Edge).sourceId) =
      some ⟨"F1", 1, 0, 0, some 60, 0⟩ := by
    rw [spotsOfD]; simp [spotsD, List.find?, Int.reduceBEq]
  have ht12 : (spotsOf spotsD "F1").find?
      (fun t' => t'.id == (⟨"F1", 1, 2⟩ : Edge).targetId) =
      some ⟨"F1", 2, 2, 0, some 120, 1⟩ := by
    rw [spotsOfD]; simp [spotsD, List.find?, Int.reduceBEq]
  have hs13 : (spotsOf spotsD "F1").find?
      (fun s' => s'.id == (⟨"F1", 1, 3⟩ : Edge).sourceId) =
      some ⟨"F1", 1, 0, 0, some 60, 0⟩ := by
    rw [spotsOfD]; simp [spotsD, List.find?, Int.reduceBEq]
  have ht13 : (spotsOf spotsD "F1").find?
      (fun t' => t'.id == (⟨"F1", 1, 3⟩ : Edge).targetId) =
      some ⟨"F1", 3, 1, 0, some 60, 5⟩ := by
    rw [spotsOfD]; simp [spotsD, List.find?, Int.reduceBEq]
  constructor
  · refine (c3_v2_dt_normalization spotsD edgesD "F1" ⟨"F1", 1, 2⟩ _ _ hs12 ht12).1
      colsD ?_
    rw [process_file_v2_evalD]
    exact List.mem_singleton.mpr rfl
  · refine (c3_v2_dt_normalization spotsD edgesE "F1" ⟨"F1", 1, 3⟩ _ _ hs13 ht13).2
      ?_ (some colsD) none
    simp [dtMinutes]

/-- C4.  A `File_ID` with no spot rows is never enumerated by
`process_all_files` (which iterates the distinct `File_ID` values of the spot
table): the run is identical to a run with that file's edges removed — so
those edges contribute neither output rows nor an error — and every output row
belongs to some other file. -/
theorem c4_no_spots_empty_result
    (spotT : List Spot) (edgeT : List Edge) (f2 : String)
    (hno : ∀ s ∈ spotT, s.fileId ≠ f2) :
    process_all_files spotT edgeT =
      process_all_files spotT (edgeT.filter (fun e => !(e.fileId == f2))) ∧
    ∀ rows, process_all_files spotT edgeT = .ok rows →
      ∀ row ∈ rows, row.edge.fileId ≠ f2 := by
  have hfids : ∀ fid ∈ uniqueFirst (spotT.map Spot.fileId), fid ≠ f2 := by
    intro fid hf
    rcases List.mem_map.mp (uniqueFirst_mem.mp hf) with ⟨s, hsmem, rfl⟩
    exact hno s hsmem
  constructor
  · rw [process_all_files_eq_concat, process_all_files_eq_concat]
    apply concatPerFile_congr
    intro fid hf
    exact process_file_congr_edges (edgesOf_filter_ne edgeT f2 fid (hfids fid hf)).symm
  · intro rows hok row hrow
    rw [process_all_files_eq_concat] at hok
    obtain ⟨fid, hfid, rws, hpf, hrw⟩ := concatPerFile_ok_mem hok hrow
    have hedge : row.edge ∈ edgesOf edgeT fid := by
      rw [← process_file_map_edge hpf]
      exact List.mem_map_of_mem Row.edge hrw
    rw [edgesOf_fileId_mem hedge]
    exact hfids fid hfid

/-- Witness for C4 at concrete tables: with spots only for `F1` and an extra
edge for `F2`, the batch result equals the result without the `F2` edge. -/
theorem c4_no_spots_empty_result_witness :
    process_all_files spotsA (edgesB ++ [(⟨"F2", 7, 8⟩ : Edge)]) =
      process_all_files spotsA
        ((edgesB ++ [(⟨"F2", 7, 8⟩ : Edge)]).filter (fun e => !(e.fileId == "F2"))) :=
  (c4_no_spots_empty_result spotsA (edgesB ++ [(⟨"F2", 7, 8⟩ : Edge)]) "F2"
    (by intro s hs; fin_cases hs <;> simp)).1

/-- C5, settled against the spec-modelled evolved variant (the naive
`process_file` in the available sources has no sentinel handling).  No output
row of the evolved variant is a sentinel `0 → 0` edge, and inserting a
sentinel edge into the edge table leaves the output unchanged — the sentinel
is discarded before processing, independently of any zero-distance skip. -/
theorem c5_sentinel_discarded (spotT : List Spot) (edgeT : List Edge) (fid : String) :
    (∀ row ∈ process_file_v2 spotT edgeT fid,
        ¬ (row.edge.sourceId = 0 ∧ row.edge.targetId = 0)) ∧
    (∀ e : Edge, e.sourceId = 0 → e.targetId = 0 →
        process_file_v2 spotT (e :: edgeT) fid = process_file_v2 spotT edgeT fid) := by
  constructor
  · intro row hrow
    obtain ⟨e, co, p⟩ := row
    obtain ⟨-, hsent, -, -⟩ := process_file_v2_mem hrow
    rintro ⟨h0, h1⟩
    simp at hsent
    exact hsent h0 h1
  · intro e h0 h1
    exact process_file_v2_sentinel_insert spotT edgeT fid e h0 h1

/-- Witness for C5 at concrete tables: the emitted edge `1 → 2` is not a
sentinel, and prepending the sentinel edge `0 → 0` to the edge table does not
change the output of the evolved variant. -/
theorem c5_sentinel_discarded_witness :
    ¬ ((⟨⟨"F1", 1, 2⟩, some colsD, none⟩ : Row).edge.sourceId = 0 ∧
        (⟨⟨"F1", 1, 2⟩, some colsD, none⟩ : Row).edge.targetId = 0) ∧
    process_file_v2 spotsD (sentinelEdge :: edgesD) "F1" =
      process_file_v2 spotsD edgesD "F1" := by
  constructor
  · refine (c5_sentinel_discarded spotsD edgesD "F1").1
      ⟨⟨"F1", 1, 2⟩, some colsD, none⟩ ?_
    rw [process_file_v2_evalD]
    exact List.mem_singleton.mpr rfl
  · exact (c5_sentinel_discarded spotsD edgesD "F1").2 sentinelEdge rfl rfl

/-- C7.  Every emitted edge of a file carries as `center_x`/`center_y` exactly
the arithmetic mean of `POSITION_X`/`POSITION_Y` over the spots of that file,
and permuting the spot table leaves that centroid unchanged. -/
theorem c7_centroid_mean_perm
    (spotT spotT' : List Spot) (edgeT : List Edge) (fid : String) (rows : List Row)
    (e : Edge) (c : ProcCols) (p : Option ℝ)
    (hperm : spotT.Perm spotT')
    (hok : process_file spotT edgeT fid = .ok rows)
    (hmem : (⟨e, some c, p⟩ : Row) ∈ rows) :
    c.center_x = mean ((spotsOf spotT fid).map Spot.x) ∧
    c.center_y = mean ((spotsOf spotT fid).map Spot.y) ∧
    mean ((spotsOf spotT' fid).map Spot.x) = c.center_x ∧
    mean ((spotsOf spotT' fid).map Spot.y) = c.center_y := by
  obtain ⟨-, hcr⟩ := process_file_mem_some hok hmem
  obtain ⟨s, t, hs, ht, hu, hv, hsx, hsy, htx, hty, hcx, hcy, hrd, hpos, hzero⟩ :=
    computeRow_some_spec hcr
  have hfilter : (spotsOf spotT fid).Perm (spotsOf spotT' fid) := hperm.filter _
  refine ⟨hcx, hcy, ?_, ?_⟩
  · rw [hcx]
    exact mean_perm (hfilter.map Spot.x).symm
  · rw [hcy]
    exact mean_perm (hfilter.map Spot.y).symm

/-- Witness for C7 at concrete tables: the emitted edge of `spotsA` carries
the centroid of the file's spots, which is unchanged when the two spot rows
are swapped. -/
theorem c7_centroid_mean_perm_witness :
    colsB.center_x = mean ((spotsOf spotsA "F1").map Spot.x) ∧
    colsB.center_y = mean ((spotsOf spotsA "F1").map Spot.y) ∧
    mean ((spotsOf [⟨"F1", 2, 2, 0, none, 0⟩, ⟨"F1", 1, 0, 0, none, 0⟩] "F1").map Spot.x) =
      colsB.center_x ∧
    mean ((spotsOf [⟨"F1", 2, 2, 0, none, 0⟩, ⟨"F1", 1, 0, 0, none, 0⟩] "F1").map Spot.y) =
      colsB.center_y :=
  c7_centroid_mean_perm spotsA [⟨"F1", 2, 2, 0, none, 0⟩, ⟨"F1", 1, 0, 0, none, 0⟩]
    edgesB "F1" [⟨⟨"F1", 1, 2⟩, some colsB, none⟩] ⟨"F1", 1, 2⟩ colsB none
    (List.Perm.swap _ _ _) process_file_evalB (List.mem_singleton.mpr rfl)

/-- C8.  For every row emitted by the engine, the persistence value is
`radial_velocity / sqrt(u² + v²)` and lies in `[-1, 1]` whenever the speed
magnitude is non-zero, and is exactly `0` when the speed magnitude is zero. -/
theorem c8_persistence_bounds
    (spotT : List Spot) (edgeT : List Edge) (fid : String) (rows : List Row)
    (e : Edge) (c : ProcCols) (p : Option ℝ)
    (hok : process_file spotT edgeT fid = .ok rows)
    (hmem : (⟨e, some c, p⟩ : Row) ∈ rows) :
    (Real.sqrt (c.u ^ 2 + c.v ^ 2) ≠ 0 →
      persistenceOf c.u c.v c.radial_velocity =
        c.radial_velocity / Real.sqrt (c.u ^ 2 + c.v ^ 2) ∧
      -1 ≤ persistenceOf c.u c.v c.radial_velocity ∧
      persistenceOf c.u c.v c.radial_velocity ≤ 1) ∧
    (Real.sqrt (c.u ^ 2 + c.v ^ 2) = 0 →
      persistenceOf c.u c.v c.radial_velocity = 0) := by
  obtain ⟨-, hcr⟩ := process_file_mem_some hok hmem
  have hsq := computeRow_rv_sq_le hcr
  constructor
  · intro hmag
    have hmagpos : 0 < Real.sqrt (c.u ^ 2 + c.v ^ 2) :=
      lt_of_le_of_ne (Real.sqrt_nonneg _) (Ne.symm hmag)
    have hmagsq : Real.sqrt (c.u ^ 2 + c.v ^ 2) ^ 2 = c.u ^ 2 + c.v ^ 2 :=
      Real.sq_sqrt (by positivity)
    have habs : c.radial_velocity ^ 2 ≤ Real.sqrt (c.u ^ 2 + c.v ^ 2) ^ 2 := by
      rw [hmagsq]; exact hsq
    have hle : c.radial_velocity ≤ Real.sqrt (c.u ^ 2 + c.v ^ 2) := by
      nlinarith [sq_nonneg (c.radial_velocity - Real.sqrt (c.u ^ 2 + c.v ^ 2))]
    have hge : -Real.sqrt (c.u ^ 2 + c.v ^ 2) ≤ c.radial_velocity := by
      nlinarith [sq_nonneg (c.radial_velocity + Real.sqrt (c.u ^ 2 + c.v ^ 2))]
    have hpe : persistenceOf c.u c.v c.radial_velocity =
        c.radial_velocity / Real.sqrt (c.u ^ 2 + c.v ^ 2) := by
      unfold persistenceOf
      rw [if_pos hmag]
    refine ⟨hpe, ?_, ?_⟩
    · rw [hpe, le_div_iff₀ hmagpos]
      linarith
    · rw [hpe, div_le_one hmagpos]
      exact hle
  · intro hmag
    unfold persistenceOf
    rw [if_neg (fun hne => hne hmag)]

/-- Witness for C8 at the concrete table: the emitted edge `1 → 2` has speed
`2 ≠ 0` and its persistence value is the bounded ratio. -/
theorem c8_persistence_bounds_witness :
    persistenceOf colsB.u colsB.v colsB.radial_velocity =
      colsB.radial_velocity / Real.sqrt (colsB.u ^ 2 + colsB.v ^ 2) ∧
    -1 ≤ persistenceOf colsB.u colsB.v colsB.radial_velocity ∧
    persistenceOf colsB.u colsB.v colsB.radial_velocity ≤ 1 := by
  refine (c8_persistence_bounds spotsA edgesB "F1"
    [⟨⟨"F1", 1, 2⟩, some colsB, none⟩] ⟨"F1", 1, 2⟩ colsB none
    process_file_evalB (List.mem_singleton.mpr rfl)).1 ?_
  rw [show colsB.u ^ 2 + colsB.v ^ 2 = 4 by norm_num [colsB]]
  rw [show (4:ℝ) = 2 ^ 2 by norm_num, Real.sqrt_sq (by norm_num : (0:ℝ) ≤ 2)]
  norm_num

/-- C9.  The engine never mutates the caller's input frames: after
constructing the analyzer (which copies the edge table), running
`process_file` and `process_all_files` (which only allocate result frames),
and running `calculate_radial_persistence` on the combined output (which
writes only into that freshly allocated frame), the caller's edge frame is
unchanged and the stored spot table is the one passed in. -/
theorem c9_inputs_not_mutated (h : Heap) (spotT : List Spot) (r0 : Nat)
    (fid : String) (hr0 : r0 < h.fresh) :
    (runEngineH h spotT r0 fid).get r0 = h.get r0 ∧
    ((analyzerInit h spotT r0).2).spot_table = spotT := by
  have h1 : ((analyzerInit h spotT r0).1).get r0 = h.get r0 :=
    heap_get_alloc_of_lt _ hr0
  have h1f : r0 < ((analyzerInit h spotT r0).1).fresh := Nat.lt_succ_of_lt hr0
  have h2 : ((processFileH (analyzerInit h spotT r0).1
      (analyzerInit h spotT r0).2 fid).1).get r0 = h.get r0 := by
    rw [processFileH_get h1f]
    exact h1
  have h2f : r0 < ((processFileH (analyzerInit h spotT r0).1
      (analyzerInit h spotT r0).2 fid).1).fresh :=
    lt_of_lt_of_le h1f (processFileH_fresh _ _ _)
  have h3 : ((processAllFilesH (processFileH (analyzerInit h spotT r0).1
      (analyzerInit h spotT r0).2 fid).1 (analyzerInit h spotT r0).2).1).get r0 =
      h.get r0 := by
    rw [processAllFilesH_get h2f]
    exact h2
  refine ⟨?_, rfl⟩
  cases hw : (processAllFilesH (processFileH (analyzerInit h spotT r0).1
      (analyzerInit h spotT r0).2 fid).1 (analyzerInit h spotT r0).2).2 with
  | ok oref =>
    have hne : r0 ≠ oref := by
      rw [processAllFilesH_ok_ref hw]
      exact Nat.ne_of_lt h2f
    simp only [runEngineH, hw]
    rw [calcPersistenceH_get hne]
    exact h3
  | error m =>
    simp only [runEngineH, hw]
    exact h3

/-- Witness for C9 at a concrete heap: running the whole engine on a one-frame
heap leaves the caller's frame untouched. -/
theorem c9_inputs_not_mutated_witness :
    (runEngineH ⟨fun _ => [], 1⟩ [] 0 "F1").get 0 = (⟨fun _ => [], 1⟩ : Heap).get 0 ∧
    ((analyzerInit ⟨fun _ => [], 1⟩ [] 0).2).spot_table = ([] : List Spot) :=
  c9_inputs_not_mutated ⟨fun _ => [], 1⟩ [] 0 "F1" (by norm_num)

/-- C10.  `process_all_files` equals the concatenation, over the distinct
`File_ID` values of the spot table, of the non-empty per-file results;
the enumeration comes from the spot table (membership is exactly the spot
table's `File_ID`s), is duplicate-free and in first-appearance order
(characterized by the recursion `uniqueFirst (x :: xs) = x ::
uniqueFirst (xs without x)`); each per-file result preserves the order of that
file's edge rows; and when no file yields output the result is the empty
frame. -/
theorem c10_driver_structure (spotT : List Spot) (edgeT : List Edge) :
    process_all_files spotT edgeT =
      concatPerFile spotT edgeT (uniqueFirst (spotT.map Spot.fileId)) ∧
    (∀ (x : String) (xs : List String),
      uniqueFirst (x :: xs) = x :: uniqueFirst (xs.filter (fun y => !decide (y = x)))) ∧
    (uniqueFirst (spotT.map Spot.fileId)).Nodup ∧
    (∀ f, f ∈ uniqueFirst (spotT.map Spot.fileId) ↔ ∃ s ∈ spotT, s.fileId = f) ∧
    (∀ (fid : String) (rows : List Row), process_file spotT edgeT fid = .ok rows →
        rows.map Row.edge = edgesOf edgeT fid) ∧
    ((∀ fid ∈ uniqueFirst (spotT.map Spot.fileId),
        process_file spotT edgeT fid = .ok []) →
      process_all_files spotT edgeT = .ok []) := by
  refine ⟨process_all_files_eq_concat spotT edgeT, uniqueFirst_cons,
    uniqueFirst_nodup _, ?_, ?_, ?_⟩
  · intro f
    rw [uniqueFirst_mem]
    constructor
    · intro hf
      rcases List.mem_map.mp hf with ⟨s, hs, rfl⟩
      exact ⟨s, hs, rfl⟩
    · rintro ⟨s, hs, rfl⟩
      exact List.mem_map_of_mem _ hs
  · intro fid rows hok
    exact process_file_map_edge hok
  · intro hall
    rw [process_all_files_eq_concat]
    exact concatPerFile_all_empty hall

/-- Witness for C10 at the concrete table: the single-file run preserves the
edge-row order of `F1`. -/
theorem c10_driver_structure_witness :
    ([(⟨⟨"F1", 1, 2⟩, some colsB, none⟩ : Row)]).map Row.edge = edgesOf edgesB "F1" :=
  (c10_driver_structure spotsA edgesB).2.2.2.2.1 "F1" _ process_file_evalB

end Trackmate

end
